import Mathlib

/-!
Verification of the giselle RAG data plane against its specification.

The development shallowly embeds the relevant TypeScript sources:

* `packages/rag2/src/chunkers/line-chunker.ts` (older chunker revision),
* the rag3 `LineChunker` (`packages/rag3/src/chunker/line-chunker.test.ts`
  carries the implementation alongside its tests),
* `packages/rag3/src/chunk-store/postgres/index.ts` (write-side store),
* `packages/rag2/src/stores/postgres/chunk-store.ts` (older store revision),
* the `PostgresQueryService.searchByQuestion` read side,
* `packages/rag3/src/ingest/ingest-pipeline.ts` (ingestion pipeline),
* the `createColumnMapping` / `toSnakeCase` column-mapping helpers.

JavaScript strings are modelled as lists of characters (`Str`); JavaScript
objects whose later assignments win are modelled as association lists that
are consulted from the most recent assignment backwards.  Database tables
are lists of rows; a row is an association list from column name to value.
External collaborators (the embedding provider, the pgvector distance
operator, the zod metadata transform) are parameters of the model, exactly
as they are constructor parameters in the source.
-/

/-- Characters treated as whitespace by JavaScript's `\s` class, `trim`,
and the chunkers' break-point search (ECMA-262 WhiteSpace and
LineTerminator code points). -/
def isJsWs (c : Char) : Bool :=
  c = ' ' || c = '\t' || c = '\n' || c = '\r' ||
  c = Char.ofNat 0x0B || c = Char.ofNat 0x0C || c = Char.ofNat 0xA0 ||
  c = Char.ofNat 0x1680 ||
  (0x2000 ≤ c.toNat && c.toNat ≤ 0x200A) ||
  c = Char.ofNat 0x2028 || c = Char.ofNat 0x2029 ||
  c = Char.ofNat 0x202F || c = Char.ofNat 0x205F ||
  c = Char.ofNat 0x3000 || c = Char.ofNat 0xFEFF

/-- JavaScript strings, modelled as lists of characters. -/
abbrev Str := List Char

/-- Model of `String.prototype.trim`: drop whitespace from both ends. -/
def jsTrim (s : Str) : Str :=
  (s.dropWhile isJsWs).reverse.dropWhile isJsWs |>.reverse

/-- Model of `content.split("\n")`. -/
def splitLF (s : Str) : List Str :=
  s.splitOn '\n'

/-- Model of `lines.join("\n")`. -/
def joinLF (lines : List Str) : Str :=
  (lines.intersperse ['\n']).flatten

/-- ASCII upper-case test, the `[A-Z]` character class of the
`toSnakeCase` regular expressions. -/
def isAsciiUpper (c : Char) : Bool :=
  'A' ≤ c && c ≤ 'Z'

/-- ASCII lower-casing; identifiers handled by the column mapping match
`[A-Za-z_][A-Za-z0-9_]*`, on which JavaScript `toLowerCase` agrees with
the ASCII mapping. -/
def jsToLower (c : Char) : Char :=
  if 'A' ≤ c && c ≤ 'Z' then Char.ofNat (c.toNat + 32) else c

/-- Model of `replace(/^_/, "")`: remove a single leading underscore. -/
def dropOneLeadingUnderscore (s : Str) : Str :=
  match s with
  | [] => []
  | c :: rest => if c = '_' then rest else c :: rest

/-- Model of `toSnakeCase` (rag3 presets / schemas helpers and
`src/unnamed/part_022`): insert `_` before every ASCII capital, lower-case
the whole string, then strip one leading underscore. -/
def toSnakeCase (s : Str) : Str :=
  dropOneLeadingUnderscore
    ((s.flatMap (fun c => if isAsciiUpper c then ['_', c] else [c])).map jsToLower)

/-- JavaScript-object lookup for association lists built by successive
assignments appended at the end: the latest assignment to a key wins. -/
def objGet (l : List (Str × Str)) (k : Str) : Option Str :=
  (l.reverse.find? (fun p => p.1 = k)).map (fun p => p.2)

/-- Overrides for the four required columns
(`requiredColumnOverrides` of `createColumnMapping`). -/
structure ReqOverrides where
  documentKey : Option Str
  content : Option Str
  indexCol : Option Str
  embedding : Option Str

/-- The merged required-column object
`{...DEFAULT_REQUIRED_COLUMNS, ...requiredColumnOverrides}`. -/
def requiredColumnsObj (ro : ReqOverrides) : List (Str × Str) :=
  [("documentKey".toList, ro.documentKey.getD "document_key".toList),
   ("content".toList, ro.content.getD "content".toList),
   ("index".toList, ro.indexCol.getD "index".toList),
   ("embedding".toList, ro.embedding.getD "embedding".toList)]

/-- One step of the `for (const fieldName of fieldNames)` loop of
`createColumnMapping`: a truthy custom mapping wins, otherwise a field not
yet assigned a truthy column gets the snake_case conversion of its name. -/
def columnMappingStep (ovr : Str → Option Str) (built : List (Str × Str))
    (fieldName : Str) : List (Str × Str) :=
  match ovr fieldName with
  | some custom =>
      if custom ≠ [] then built ++ [(fieldName, custom)]
      else
        match objGet built fieldName with
        | some existing =>
            if existing = [] then built ++ [(fieldName, toSnakeCase fieldName)]
            else built
        | none => built ++ [(fieldName, toSnakeCase fieldName)]
  | none =>
      match objGet built fieldName with
      | some existing =>
          if existing = [] then built ++ [(fieldName, toSnakeCase fieldName)]
          else built
      | none => built ++ [(fieldName, toSnakeCase fieldName)]

/-- Model of `createColumnMapping` (`src/unnamed/part_022`, lines 150-198):
build the metadata columns field by field, then merge them over the
required columns with object spread, so metadata entries shadow required
entries of the same key. -/
def createColumnMapping (fields : List Str) (ovr : Str → Option Str)
    (ro : ReqOverrides) : List (Str × Str) :=
  requiredColumnsObj ro ++ fields.foldl (columnMappingStep ovr) []

theorem objGet_append_last (l : List (Str × Str)) (k v : Str) :
    objGet (l ++ [(k, v)]) k = some v := by
  simp [objGet]

theorem objGet_append_ne (l : List (Str × Str)) (k v f : Str) (h : k ≠ f) :
    objGet (l ++ [(k, v)]) f = objGet l f := by
  simp only [objGet, List.reverse_append, List.reverse_cons, List.reverse_nil,
    List.nil_append, List.cons_append, List.find?_cons]
  have hd : (decide ((k, v).1 = f)) = false := by simp [h]
  rw [hd]

theorem objGet_append_right (a b : List (Str × Str)) (f v : Str)
    (h : objGet b f = some v) : objGet (a ++ b) f = some v := by
  simp only [objGet, List.reverse_append] at h ⊢
  cases hb : b.reverse.find? (fun p => p.1 = f) with
  | none => simp [hb, Option.map] at h
  | some p =>
      rw [List.find?_append, hb]
      simpa [hb] using h

/-- The fold state only ever binds `f` to `toSnakeCase f`, as long as `f`
has no custom override. -/
def SnakeInv (f : Str) (built : List (Str × Str)) : Prop :=
  objGet built f = none ∨ objGet built f = some (toSnakeCase f)

theorem columnMappingStep_self (ovr : Str → Option Str) (built : List (Str × Str))
    (f : Str) (hovr : ovr f = none) (hinv : SnakeInv f built) :
    objGet (columnMappingStep ovr built f) f = some (toSnakeCase f) := by
  unfold columnMappingStep
  rw [hovr]
  cases hinv with
  | inl h => rw [h]; exact objGet_append_last _ _ _
  | inr h =>
      rw [h]
      by_cases he : toSnakeCase f = []
      · simp only [he, if_true]
        exact objGet_append_last _ _ _
      · simp only [he, if_false]
        exact h

theorem columnMappingStep_keeps (ovr : Str → Option Str) (built : List (Str × Str))
    (g f : Str) (hovr : ovr f = none)
    (h : objGet built f = some (toSnakeCase f)) :
    objGet (columnMappingStep ovr built g) f = some (toSnakeCase f) := by
  by_cases hgf : g = f
  · subst hgf
    exact columnMappingStep_self ovr built g hovr (Or.inr h)
  · unfold columnMappingStep
    cases ovr g with
    | some custom =>
        by_cases hc : custom = []
        · simp only [hc, ne_eq, not_true_eq_false, if_false]
          cases objGet built g with
          | some existing =>
              by_cases he : existing = []
              · simp only [he, if_true]
                rw [objGet_append_ne _ _ _ _ hgf]; exact h
              · simp only [he, if_false]; exact h
          | none =>
              rw [objGet_append_ne _ _ _ _ hgf]; exact h
        · simp only [ne_eq, hc, not_false_eq_true, if_true]
          rw [objGet_append_ne _ _ _ _ hgf]; exact h
    | none =>
        cases objGet built g with
        | some existing =>
            by_cases he : existing = []
            · simp only [he, if_true]
              rw [objGet_append_ne _ _ _ _ hgf]; exact h
            · simp only [he, if_false]; exact h
        | none =>
            rw [objGet_append_ne _ _ _ _ hgf]; exact h

theorem columnMappingStep_inv (ovr : Str → Option Str) (built : List (Str × Str))
    (g f : Str) (hovr : ovr f = none) (hinv : SnakeInv f built) :
    SnakeInv f (columnMappingStep ovr built g) := by
  by_cases hgf : g = f
  · subst hgf
    exact Or.inr (columnMappingStep_self ovr built g hovr hinv)
  · cases hinv with
    | inr h => exact Or.inr (columnMappingStep_keeps ovr built g f hovr h)
    | inl h =>
        unfold columnMappingStep
        cases ovr g with
        | some custom =>
            by_cases hc : custom = []
            · simp only [hc, ne_eq, not_true_eq_false, if_false]
              cases objGet built g with
              | some existing =>
                  by_cases he : existing = []
                  · simp only [he, if_true]
                    left; rw [objGet_append_ne _ _ _ _ hgf]; exact h
                  · simp only [he, if_false]; exact Or.inl h
              | none =>
                  left; rw [objGet_append_ne _ _ _ _ hgf]; exact h
            · simp only [ne_eq, hc, not_false_eq_true, if_true]
              left; rw [objGet_append_ne _ _ _ _ hgf]; exact h
        | none =>
            cases objGet built g with
            | some existing =>
                by_cases he : existing = []
                · simp only [he, if_true]
                  left; rw [objGet_append_ne _ _ _ _ hgf]; exact h
                · simp only [he, if_false]; exact Or.inl h
            | none =>
                left; rw [objGet_append_ne _ _ _ _ hgf]; exact h

theorem foldl_columnMappingStep_keeps (ovr : Str → Option Str) (fields : List Str)
    (built : List (Str × Str)) (f : Str) (hovr : ovr f = none)
    (h : objGet built f = some (toSnakeCase f)) :
    objGet (fields.foldl (columnMappingStep ovr) built) f = some (toSnakeCase f) := by
  induction fields generalizing built with
  | nil => exact h
  | cons g rest ih =>
      exact ih (columnMappingStep ovr built g)
        (columnMappingStep_keeps ovr built g f hovr h)

theorem foldl_columnMappingStep_get (ovr : Str → Option Str) (f : Str)
    (hovr : ovr f = none) :
    ∀ (fields : List Str) (built : List (Str × Str)), f ∈ fields → SnakeInv f built →
      objGet (fields.foldl (columnMappingStep ovr) built) f = some (toSnakeCase f) := by
  intro fields
  induction fields with
  | nil => intro built hf _; cases hf
  | cons g rest ih =>
      intro built hf hinv
      by_cases hgf : g = f
      · subst hgf
        exact foldl_columnMappingStep_keeps ovr rest _ g hovr
          (columnMappingStep_self ovr built g hovr hinv)
      · rcases List.mem_cons.mp hf with h1 | h1
        · exact absurd h1.symm hgf
        · exact ih _ h1 (columnMappingStep_inv ovr built g f hovr hinv)

/-- C9: for every metadata descriptor, every logical field without an
explicit override is mapped to the snake_case conversion of its camelCase
name in the resulting column mapping, including when overrides are
supplied for other fields. -/
theorem C9_default_mapping_snake_case (fields : List Str) (ovr : Str → Option Str)
    (ro : ReqOverrides) (f : Str) (hf : f ∈ fields) (hovr : ovr f = none) :
    objGet (createColumnMapping fields ovr ro) f = some (toSnakeCase f) := by
  unfold createColumnMapping
  exact objGet_append_right _ _ _ _
    (foldl_columnMappingStep_get ovr f hovr fields [] hf (Or.inl rfl))

/-- Witness for C9 at a concrete descriptor: with fields `fileSha` and
`nodeId` and an override only for `nodeId`, the field `fileSha` maps to
`file_sha`. -/
theorem C9_default_mapping_snake_case_witness :
    objGet
      (createColumnMapping ["fileSha".toList, "nodeId".toList]
        (fun f => if f = "nodeId".toList then some "custom_node".toList else none)
        ⟨none, none, none, none⟩)
      "fileSha".toList = some "file_sha".toList := by
  have h := C9_default_mapping_snake_case ["fileSha".toList, "nodeId".toList]
    (fun f => if f = "nodeId".toList then some "custom_node".toList else none)
    ⟨none, none, none, none⟩ "fileSha".toList (by decide) (by decide)
  rw [h]
  decide

/-- Configuration of the line chunkers (`maxLines`, `overlap`,
`maxChars`, the last being `maxChunkSize` in the specification). -/
structure ChunkerCfg where
  maxLines : Nat
  overlap : Nat
  maxChars : Nat

/-- Window advance of the rag3 `LineChunker.chunk`:
`const step = Math.max(1, this.maxLines - this.overlap)`. -/
def lcStep (cfg : ChunkerCfg) : Nat :=
  max 1 (cfg.maxLines - cfg.overlap)

/-- Model of `hasLongLinesAfterProcessing`: some line longer than
`0.8 * maxChars`; the comparison `len > 0.8 * maxChars` is the exact
rational comparison `5 * len > 4 * maxChars`. -/
def hasLongLines (cfg : ChunkerCfg) (content : Str) : Bool :=
  (splitLF content).any (fun line => 4 * cfg.maxChars < 5 * line.length)

/-- Characters matched by the break-point regular expression
`/\s|[,.;!?]/`. -/
def isBreakHit (c : Char) : Bool :=
  isJsWs c || c = ',' || c = '.' || c = ';' || c = '!' || c = '?'

/-- The backward scan `for (let i = maxChars - 1; i > maxChars * 0.8; i--)`
of `splitLongContent`, returning `some (i + 1)` at the first break
character found; `i > 0.8 * maxChars` is the exact comparison
`5 * i > 4 * maxChars`. -/
def findBpGo (maxChars : Nat) (remaining : Str) (i : Nat) : Option Nat :=
  if 4 * maxChars < 5 * i then
    if i < remaining.length && isBreakHit (remaining.getD i ' ') then some (i + 1)
    else findBpGo maxChars remaining (i - 1)
  else none
termination_by i
decreasing_by
  rename_i h _
  have hi : 0 < i := by
    by_contra hc
    push_neg at hc
    interval_cases i
    omega
  omega

/-- The break point chosen by `splitLongContent`:
initialized to `maxChars`, replaced by the scan's hit if any. -/
def findBp (maxChars : Nat) (remaining : Str) : Nat :=
  (findBpGo maxChars remaining (maxChars - 1)).getD maxChars

theorem length_dropWhile_le (p : Char → Bool) (l : Str) :
    (l.dropWhile p).length ≤ l.length := by
  induction l with
  | nil => simp
  | cons a t ih =>
      rw [List.dropWhile_cons, List.length_cons]
      cases h : p a with
      | true => simp only [h, if_true]; omega
      | false =>
          simp only [h, Bool.false_eq_true, if_false, List.length_cons]
          omega

theorem jsTrim_length_le (s : Str) : (jsTrim s).length ≤ s.length := by
  unfold jsTrim
  calc ((s.dropWhile isJsWs).reverse.dropWhile isJsWs).reverse.length
      = ((s.dropWhile isJsWs).reverse.dropWhile isJsWs).length := by
        rw [List.length_reverse]
    _ ≤ (s.dropWhile isJsWs).reverse.length := length_dropWhile_le _ _
    _ = (s.dropWhile isJsWs).length := by rw [List.length_reverse]
    _ ≤ s.length := length_dropWhile_le _ _

theorem findBpGo_le (maxChars : Nat) (remaining : Str) :
    ∀ i r, findBpGo maxChars remaining i = some r → r ≤ i + 1 := by
  intro i
  induction i using Nat.strong_induction_on with
  | _ i ih =>
      intro r h
      unfold findBpGo at h
      by_cases h1 : 4 * maxChars < 5 * i
      · rw [if_pos h1] at h
        by_cases h2 : (decide (i < remaining.length) && isBreakHit (remaining.getD i ' ')) = true
        · rw [if_pos h2] at h
          have := Option.some.inj h
          omega
        · rw [if_neg h2] at h
          have hi : 0 < i := by omega
          have hr := ih (i - 1) (by omega) r h
          omega
      · rw [if_neg h1] at h
        exact absurd h (by simp)

theorem findBp_le (maxChars : Nat) (remaining : Str) :
    findBp maxChars remaining ≤ maxChars := by
  unfold findBp
  cases h : findBpGo maxChars remaining (maxChars - 1) with
  | none => simp
  | some r =>
      have hr := findBpGo_le maxChars remaining (maxChars - 1) r h
      have hm : 0 < maxChars := by
        by_contra hc
        push_neg at hc
        interval_cases maxChars
        unfold findBpGo at h
        simp at h
      simp only [Option.getD_some]
      omega

/-- The break point actually used by the rag3 `splitLongContent` loop:
the scan result, or `Math.max(1, maxChars)` if it came out `0`
(the source's `if (breakPoint === 0)` safety check). -/
def bpChoice (maxChars : Nat) (remaining : Str) : Nat :=
  if findBp maxChars remaining = 0 then max 1 maxChars else findBp maxChars remaining

theorem bpChoice_pos (maxChars : Nat) (remaining : Str) :
    0 < bpChoice maxChars remaining := by
  unfold bpChoice
  by_cases h : findBp maxChars remaining = 0
  · simp [h]
  · simp only [h, if_false]
    omega

theorem bpChoice_le (maxChars : Nat) (remaining : Str) (h : 0 < maxChars) :
    bpChoice maxChars remaining ≤ maxChars := by
  unfold bpChoice
  by_cases h0 : findBp maxChars remaining = 0
  · simp [h0]; omega
  · simp only [h0, if_false]
    exact findBp_le maxChars remaining

/-- Model of the rag3 `splitLongContent` while-loop.  `orig` is the
function's `content` argument, against which the source's safety check
`remaining === content` compares; the loop pushes the trimmed slice up to
the break point when non-empty and recurses on the trimmed rest. -/
def splitLong3Go (maxChars : Nat) (orig : Str) (remaining : Str) : List Str :=
  if remaining = [] then []
  else if remaining.length ≤ maxChars then [remaining]
  else if jsTrim (remaining.drop (bpChoice maxChars remaining)) = orig ∨
      bpChoice maxChars remaining = 0 then
    (if jsTrim (remaining.take (bpChoice maxChars remaining)) = [] then []
      else [jsTrim (remaining.take (bpChoice maxChars remaining))]) ++
    (if jsTrim (remaining.drop (bpChoice maxChars remaining)) = [] then []
      else [jsTrim (remaining.drop (bpChoice maxChars remaining))])
  else
    (if jsTrim (remaining.take (bpChoice maxChars remaining)) = [] then []
      else [jsTrim (remaining.take (bpChoice maxChars remaining))]) ++
    splitLong3Go maxChars orig (jsTrim (remaining.drop (bpChoice maxChars remaining)))
termination_by remaining.length
decreasing_by
  have hbp := bpChoice_pos maxChars remaining
  have h1 := jsTrim_length_le (remaining.drop (bpChoice maxChars remaining))
  rw [List.length_drop] at h1
  rename_i hgt _
  omega

/-- Model of the rag3 `splitLongContent`: contents short enough are
returned whole; longer ones go through the break-point loop. -/
def splitLongContent3 (maxChars : Nat) (content : Str) : List Str :=
  if content.length ≤ maxChars then [content]
  else splitLong3Go maxChars content content

/-- The chunk texts emitted for the window starting at line `i`
(the body of one iteration of the rag3 `chunk` loop). -/
def emitAt (cfg : ChunkerCfg) (lines : List Str) (i : Nat) : List Str :=
  if jsTrim (joinLF ((lines.drop i).take (min (i + cfg.maxLines) lines.length - i))) = []
  then []
  else if cfg.maxChars <
        (jsTrim (joinLF ((lines.drop i).take (min (i + cfg.maxLines) lines.length - i)))).length
      || hasLongLines cfg
        (jsTrim (joinLF ((lines.drop i).take (min (i + cfg.maxLines) lines.length - i)))) then
    splitLongContent3 cfg.maxChars
      (jsTrim (joinLF ((lines.drop i).take (min (i + cfg.maxLines) lines.length - i))))
  else [jsTrim (joinLF ((lines.drop i).take (min (i + cfg.maxLines) lines.length - i)))]

/-- Model of the rag3 `chunk` loop
`for (let i = 0; i < lines.length; i += step)` with its `continue` on
empty windows and `break` once the window reaches the last line.
Well-founded on `lines.length - i`: every iteration advances `i` by
`step ≥ 1`. -/
def chunkLoop (cfg : ChunkerCfg) (lines : List Str) (i : Nat) : List Str :=
  if i < lines.length then
    if jsTrim (joinLF ((lines.drop i).take (min (i + cfg.maxLines) lines.length - i))) = []
    then chunkLoop cfg lines (i + lcStep cfg)
    else if lines.length ≤ min (i + cfg.maxLines) lines.length then emitAt cfg lines i
    else emitAt cfg lines i ++ chunkLoop cfg lines (i + lcStep cfg)
  else []
termination_by lines.length - i
decreasing_by
  all_goals
    have hs : 1 ≤ lcStep cfg := le_max_left 1 _
    rename_i hlt _
    omega

/-- The window start positions visited by the rag3 `chunk` loop body. -/
def chunkPositions (cfg : ChunkerCfg) (lines : List Str) (i : Nat) : List Nat :=
  if i < lines.length then
    if jsTrim (joinLF ((lines.drop i).take (min (i + cfg.maxLines) lines.length - i))) = []
    then i :: chunkPositions cfg lines (i + lcStep cfg)
    else if lines.length ≤ min (i + cfg.maxLines) lines.length then [i]
    else i :: chunkPositions cfg lines (i + lcStep cfg)
  else []
termination_by lines.length - i
decreasing_by
  all_goals
    have hs : 1 ≤ lcStep cfg := le_max_left 1 _
    rename_i hlt _
    omega

/-- Model of the rag3 `LineChunker.chunk`: run the window loop over the
LF-split lines, then `filter(chunk => chunk.trim().length > 0)`. -/
def chunk3 (cfg : ChunkerCfg) (text : Str) : List Str :=
  (chunkLoop cfg (splitLF text) 0).filter (fun c => !(jsTrim c).isEmpty)

theorem chunkPositions_head (cfg : ChunkerCfg) (lines : List Str) (j : Nat) :
    chunkPositions cfg lines j = [] ∨
      ∃ rest, chunkPositions cfg lines j = j :: rest := by
  rw [chunkPositions]
  by_cases h1 : j < lines.length
  · rw [if_pos h1]
    by_cases h2 : jsTrim (joinLF ((lines.drop j).take
        (min (j + cfg.maxLines) lines.length - j))) = []
    · rw [if_pos h2]
      exact Or.inr ⟨_, rfl⟩
    · rw [if_neg h2]
      by_cases h3 : lines.length ≤ min (j + cfg.maxLines) lines.length
      · rw [if_pos h3]
        exact Or.inr ⟨[], rfl⟩
      · rw [if_neg h3]
        exact Or.inr ⟨_, rfl⟩
  · rw [if_neg h1]
    exact Or.inl rfl

theorem chunkPositions_chain (cfg : ChunkerCfg) (lines : List Str) (i : Nat) :
    List.Chain' (fun a b => b = a + lcStep cfg) (chunkPositions cfg lines i) := by
  induction i using chunkPositions.induct cfg lines with
  | case1 i h1 h2 ih =>
      rw [chunkPositions, if_pos h1, if_pos h2]
      rw [List.chain'_cons']
      refine ⟨?_, ih⟩
      intro b hb
      rcases chunkPositions_head cfg lines (i + lcStep cfg) with h | ⟨rest, h⟩
      · rw [h] at hb; cases hb
      · rw [h] at hb
        simp only [List.head?_cons, Option.mem_def, Option.some.injEq] at hb
        omega
  | case2 i h1 h2 h3 =>
      rw [chunkPositions, if_pos h1, if_neg h2, if_pos h3]
      exact List.chain'_singleton _
  | case3 i h1 h2 h3 ih =>
      rw [chunkPositions, if_pos h1, if_neg h2, if_neg h3]
      rw [List.chain'_cons']
      refine ⟨?_, ih⟩
      intro b hb
      rcases chunkPositions_head cfg lines (i + lcStep cfg) with h | ⟨rest, h⟩
      · rw [h] at hb; cases hb
      · rw [h] at hb
        simp only [List.head?_cons, Option.mem_def, Option.some.injEq] at hb
        omega
  | case4 i h1 =>
      rw [chunkPositions, if_neg h1]
      exact List.chain'_nil

theorem chunkPositions_length_le (cfg : ChunkerCfg) (lines : List Str) (i : Nat) :
    (chunkPositions cfg lines i).length ≤ lines.length - i := by
  induction i using chunkPositions.induct cfg lines with
  | case1 i h1 h2 ih =>
      rw [chunkPositions, if_pos h1, if_pos h2]
      have hs : 1 ≤ lcStep cfg := le_max_left 1 _
      simp only [List.length_cons]
      omega
  | case2 i h1 h2 h3 =>
      rw [chunkPositions, if_pos h1, if_neg h2, if_pos h3]
      simp only [List.length_singleton]
      omega
  | case3 i h1 h2 h3 ih =>
      rw [chunkPositions, if_pos h1, if_neg h2, if_neg h3]
      have hs : 1 ≤ lcStep cfg := le_max_left 1 _
      simp only [List.length_cons]
      omega
  | case4 i h1 =>
      rw [chunkPositions, if_neg h1]
      simp

theorem chunkLoop_eq_flatMap (cfg : ChunkerCfg) (lines : List Str) (i : Nat) :
    chunkLoop cfg lines i =
      (chunkPositions cfg lines i).flatMap (emitAt cfg lines) := by
  induction i using chunkPositions.induct cfg lines with
  | case1 i h1 h2 ih =>
      rw [chunkLoop, chunkPositions, if_pos h1, if_pos h1, if_pos h2, if_pos h2]
      rw [List.flatMap_cons]
      have he : emitAt cfg lines i = [] := by
        rw [emitAt, if_pos h2]
      rw [he, List.nil_append]
      exact ih
  | case2 i h1 h2 h3 =>
      rw [chunkLoop, chunkPositions, if_pos h1, if_pos h1, if_neg h2, if_neg h2,
        if_pos h3, if_pos h3]
      simp
  | case3 i h1 h2 h3 ih =>
      rw [chunkLoop, chunkPositions, if_pos h1, if_pos h1, if_neg h2, if_neg h2,
        if_neg h3, if_neg h3]
      rw [List.flatMap_cons, ih]
  | case4 i h1 =>
      rw [chunkLoop, chunkPositions, if_neg h1, if_neg h1]
      simp

/-- C7: the rag3 line chunker advances its window in increments of
`step = max(1, maxLines − overlap)`: for every input string and every
configuration (including `overlap ≥ maxLines`), consecutive visited
window positions differ by exactly that step, which is at least 1, the
number of loop iterations is bounded by the number of lines (so `chunk`
terminates), and the emitted sequence is the finite concatenation of the
windows' emissions. -/
theorem C7_chunker_positive_progress (cfg : ChunkerCfg) (text : Str) :
    1 ≤ lcStep cfg ∧
    lcStep cfg = max 1 (cfg.maxLines - cfg.overlap) ∧
    List.Chain' (fun a b => b = a + lcStep cfg) (chunkPositions cfg (splitLF text) 0) ∧
    (chunkPositions cfg (splitLF text) 0).length ≤ (splitLF text).length ∧
    chunk3 cfg text =
      ((chunkPositions cfg (splitLF text) 0).flatMap
        (emitAt cfg (splitLF text))).filter (fun c => !(jsTrim c).isEmpty) := by
  refine ⟨le_max_left 1 _, rfl, chunkPositions_chain cfg (splitLF text) 0, ?_, ?_⟩
  · have := chunkPositions_length_le cfg (splitLF text) 0
    omega
  · rw [chunk3, chunkLoop_eq_flatMap]

/-- Values bound into database columns (`DbValue` of the source: string,
number, boolean, null, or a numeric vector; numbers as exact rationals). -/
inductive DbValue where
  | s : String → DbValue
  | num : Rat → DbValue
  | b : Bool → DbValue
  | vec : List Rat → DbValue
  | null : DbValue
deriving DecidableEq

/-- A database row: column name to value.  Rows built by JavaScript object
literals are stored most-recent-assignment first, so the first match is
the value the object holds. -/
abbrev Row := List (String × DbValue)

/-- A table is its list of rows (SQL multiset semantics; order is the
insertion order and carries no meaning). -/
abbrev Table := List Row

/-- Read one column of a row; `none` plays SQL NULL / an absent column. -/
def rowGet (r : Row) (c : String) : Option DbValue :=
  (r.find? (fun p => p.1 = c)).map (fun p => p.2)

/-- The rag3 `ColumnMapping`: physical columns for the three fixed fields
and the document key, plus the logical-field-to-column entries. -/
structure ColMap where
  documentKey : String
  content : String
  indexCol : String
  embedding : String
  fields : List (String × String)

/-- Configuration of `PostgresChunkStore`
(`packages/rag3/src/chunk-store/postgres/index.ts`): table name, column
mapping and the static context merged into every inserted row. -/
structure StoreConfig where
  tableName : String
  mapping : ColMap
  staticContext : List (String × DbValue)

/-- A chunk with its embedding, as the pipeline hands it to the store. -/
structure ChunkWithEmbedding where
  content : String
  index : Nat
  embedding : List Rat
deriving DecidableEq

/-- The logical names `mapMetadata` always excludes from the metadata
mapping. -/
def reservedKeys : List String :=
  ["documentKey", "content", "index", "embedding"]

/-- Model of `PostgresChunkStore.mapMetadata`: every metadata entry whose
key is in the mapping and is not one of the reserved logical names
becomes `(physicalColumn, value)`. -/
def mapMetadata (mapping : ColMap) (meta : List (String × DbValue)) : Row :=
  meta.filterMap (fun kv =>
    if reservedKeys.contains kv.1 then none
    else
      match mapping.fields.find? (fun f => f.1 = kv.1) with
      | some f => some (f.2, kv.2)
      | none => none)

/-- Model of the record built for one chunk inside
`PostgresChunkStore.insert` plus `insertRecord`'s appended embedding
column.  JavaScript object spread lets later entries win, so the row is
listed latest-assignment first: the embedding column (pushed last by
`insertRecord`), then the static context, the mapped metadata, and
finally the index, content and document-key assignments. -/
def buildRecord (cfg : StoreConfig) (dk : String) (ch : ChunkWithEmbedding)
    (meta : List (String × DbValue)) : Row :=
  (cfg.mapping.embedding, DbValue.vec ch.embedding)
    :: (cfg.staticContext.reverse
      ++ ((mapMetadata cfg.mapping meta).reverse
        ++ [(cfg.mapping.indexCol, DbValue.num ch.index),
            (cfg.mapping.content, DbValue.s ch.content),
            (cfg.mapping.documentKey, DbValue.s dk)]))

/-- Model of `deleteByDocumentKeyInternal`
(`packages/rag3/src/chunk-store/postgres/index.ts`, lines 93-105): the
DELETE filters on the document-key column alone, with no source-scope
condition. -/
def deleteByDocKey (cfg : StoreConfig) (t : Table) (dk : String) : Table :=
  t.filter (fun r => !(rowGet r cfg.mapping.documentKey = some (DbValue.s dk) : Bool))

/-- One statement of the insert transaction: the scoped DELETE, or one
parameterized INSERT of a built row. -/
inductive TxStmt where
  | del : TxStmt
  | ins : Row → TxStmt

/-- The statement sequence `PostgresChunkStore.insert` issues between
BEGIN and COMMIT. -/
def txStmts (cfg : StoreConfig) (dk : String) (chunks : List ChunkWithEmbedding)
    (meta : List (String × DbValue)) : List TxStmt :=
  TxStmt.del :: chunks.map (fun ch => TxStmt.ins (buildRecord cfg dk ch meta))

/-- Effect of one statement on the transaction's working table. -/
def applyStmt (cfg : StoreConfig) (dk : String) (t : Table) : TxStmt → Table
  | TxStmt.del => deleteByDocKey cfg t dk
  | TxStmt.ins r => t ++ [r]

/-- Run the statements of a transaction on a working copy; `failAt` is the
index of the statement the database fails on, if any (`none` = the run
where every statement succeeds). -/
def runStmts (cfg : StoreConfig) (dk : String) (work : Table)
    (stmts : List TxStmt) (failAt : Option Nat) (idx : Nat) : Option Table :=
  match stmts with
  | [] => some work
  | stmt :: rest =>
      if failAt = some idx then none
      else runStmts cfg dk (applyStmt cfg dk work stmt) rest failAt (idx + 1)

/-- Result of one `insert` call: whether it threw, and the durable table
after COMMIT or ROLLBACK. -/
structure StoreOutcome where
  ok : Bool
  table : Table
deriving DecidableEq

/-- Model of `PostgresChunkStore.insert`: BEGIN, the scoped DELETE, one
INSERT per chunk in order, COMMIT; on any statement error the catch block
issues ROLLBACK, so the durable table is the one from before the call,
and the call reports failure (`DatabaseError`). -/
def insertStore (cfg : StoreConfig) (t : Table) (dk : String)
    (chunks : List ChunkWithEmbedding) (meta : List (String × DbValue))
    (failAt : Option Nat) : StoreOutcome :=
  match runStmts cfg dk t (txStmts cfg dk chunks meta) failAt 0 with
  | some t2 => ⟨true, t2⟩
  | none => ⟨false, t⟩

/-- The rag2 storage schema data `deleteByDocumentKey` consults
(`packages/rag2/src/stores/postgres/chunk-store.ts`): the logical
document-key field, the ordered source keys, and the column mapping. -/
structure Rag2Schema where
  documentKey : String
  sourceKeys : List String
  columnMapping : List (String × String)

/-- Lookup in a string-to-string record. -/
def recGet (l : List (String × String)) (k : String) : Option String :=
  (l.find? (fun p => p.1 = k)).map (fun p => p.2)

/-- The source-key conditions of the rag2 `deleteByDocumentKey` WHERE
clause: one `column = value` conjunct per source key that has a truthy
column in the mapping and a defined value in the store's source context. -/
def rag2SourceConds (schema : Rag2Schema) (sourceContext : List (String × DbValue)) :
    List (String × DbValue) :=
  schema.sourceKeys.filterMap (fun sk =>
    match recGet schema.columnMapping sk with
    | some col =>
        if col = "" then none
        else
          match rowGet sourceContext sk with
          | some v => some (col, v)
          | none => none
    | none => none)

/-- The document-key condition of the rag2 `deleteByDocumentKey` WHERE
clause; an undefined document-key value fails the `isDbValue` guard and
throws. -/
def rag2DocCond (schema : Rag2Schema) (meta : List (String × DbValue)) :
    Except Unit (List (String × DbValue)) :=
  match recGet schema.columnMapping schema.documentKey with
  | some col =>
      if col = "" then Except.ok []
      else
        match rowGet meta schema.documentKey with
        | some v => Except.ok [(col, v)]
        | none => Except.error ()
  | none => Except.ok []

/-- Model of the rag2 `DocumentChunkStore.deleteByDocumentKey`
(lines 139-196): DELETE the rows matching the conjunction of all
source-key conditions and the document-key condition; throw when the
condition list is empty. -/
def rag2DeleteByDocumentKey (schema : Rag2Schema)
    (sourceContext : List (String × DbValue)) (t : Table)
    (meta : List (String × DbValue)) : Except Unit Table :=
  match rag2DocCond schema meta with
  | Except.error e => Except.error e
  | Except.ok dkCond =>
      if rag2SourceConds schema sourceContext ++ dkCond = [] then Except.error ()
      else
        Except.ok (t.filter (fun r =>
          !((rag2SourceConds schema sourceContext ++ dkCond).all
            (fun cv => rowGet r cv.1 = some cv.2))))

/-- The rows a table holds for one document key: those whose document-key
column equals the key. -/
def rowsForKey (cfg : StoreConfig) (t : Table) (dk : String) : Table :=
  t.filter (fun r => decide (rowGet r cfg.mapping.documentKey = some (DbValue.s dk)))

theorem rowsForKey_deleteByDocKey (cfg : StoreConfig) (t : Table) (dk : String) :
    rowsForKey cfg (deleteByDocKey cfg t dk) dk = [] := by
  unfold rowsForKey deleteByDocKey
  rw [List.filter_filter]
  rw [List.filter_eq_nil_iff]
  intro r hr
  by_cases h : rowGet r cfg.mapping.documentKey = some (DbValue.s dk) <;> simp [h]

theorem runStmts_none (cfg : StoreConfig) (dk : String) :
    ∀ (stmts : List TxStmt) (work : Table) (idx : Nat),
      runStmts cfg dk work stmts none idx =
        some (stmts.foldl (applyStmt cfg dk) work) := by
  intro stmts
  induction stmts with
  | nil => intro work idx; rfl
  | cons s rest ih =>
      intro work idx
      rw [runStmts]
      rw [if_neg (by simp)]
      rw [ih]
      rfl

theorem runStmts_fail (cfg : StoreConfig) (dk : String) :
    ∀ (stmts : List TxStmt) (work : Table) (idx j : Nat),
      idx ≤ j → j < idx + stmts.length →
      runStmts cfg dk work stmts (some j) idx = none := by
  intro stmts
  induction stmts with
  | nil => intro work idx j h1 h2; simp at h2; omega
  | cons s rest ih =>
      intro work idx j h1 h2
      rw [runStmts]
      by_cases hj : j = idx
      · rw [if_pos (by rw [hj])]
      · rw [if_neg (by simp; omega)]
        apply ih
        · omega
        · simp at h2
          omega

theorem foldl_ins (cfg : StoreConfig) (dk : String) :
    ∀ (rows : List Row) (work : Table),
      (rows.map TxStmt.ins).foldl (applyStmt cfg dk) work = work ++ rows := by
  intro rows
  induction rows with
  | nil => intro work; simp
  | cons r rest ih =>
      intro work
      rw [List.map_cons, List.foldl_cons]
      rw [ih]
      show (work ++ [r]) ++ rest = work ++ r :: rest
      rw [List.append_assoc]
      rfl

theorem insertStore_success (cfg : StoreConfig) (t : Table) (dk : String)
    (chunks : List ChunkWithEmbedding) (meta : List (String × DbValue)) :
    insertStore cfg t dk chunks meta none =
      ⟨true, deleteByDocKey cfg t dk ++ chunks.map (fun ch => buildRecord cfg dk ch meta)⟩ := by
  unfold insertStore
  rw [runStmts_none]
  show StoreOutcome.mk true
    ((txStmts cfg dk chunks meta).foldl (applyStmt cfg dk) t) = _
  unfold txStmts
  rw [List.foldl_cons]
  have hmap : chunks.map (fun ch => TxStmt.ins (buildRecord cfg dk ch meta))
      = (chunks.map (fun ch => buildRecord cfg dk ch meta)).map TxStmt.ins := by
    rw [List.map_map]
    rfl
  rw [hmap, foldl_ins]
  rfl

theorem buildRecord_docKey (cfg : StoreConfig) (dk : String)
    (ch : ChunkWithEmbedding) (meta : List (String × DbValue))
    (hsc : ∀ p ∈ cfg.staticContext, p.1 ≠ cfg.mapping.documentKey)
    (hmm : ∀ p ∈ mapMetadata cfg.mapping meta, p.1 ≠ cfg.mapping.documentKey)
    (hemb : cfg.mapping.embedding ≠ cfg.mapping.documentKey)
    (hcont : cfg.mapping.content ≠ cfg.mapping.documentKey)
    (hidx : cfg.mapping.indexCol ≠ cfg.mapping.documentKey) :
    rowGet (buildRecord cfg dk ch meta) cfg.mapping.documentKey =
      some (DbValue.s dk) := by
  unfold buildRecord rowGet
  rw [List.find?_cons_of_neg _ (by simpa using hemb)]
  rw [List.find?_append]
  have h1 : cfg.staticContext.reverse.find?
      (fun p => p.1 = cfg.mapping.documentKey) = none := by
    rw [List.find?_eq_none]
    intro x hx
    simpa using hsc x (List.mem_reverse.mp hx)
  rw [h1]
  rw [Option.none_or]
  rw [List.find?_append]
  have h2 : (mapMetadata cfg.mapping meta).reverse.find?
      (fun p => p.1 = cfg.mapping.documentKey) = none := by
    rw [List.find?_eq_none]
    intro x hx
    simpa using hmm x (List.mem_reverse.mp hx)
  rw [h2]
  rw [Option.none_or]
  rw [List.find?_cons_of_neg _ (by simpa using hidx)]
  rw [List.find?_cons_of_neg _ (by simpa using hcont)]
  rw [List.find?_cons_of_pos _ (by simp)]
  rfl

/-- C1 (amended per `C1_counterexample`): provided no mapped metadata
field, static-context entry, or other fixed column writes to the
document-key column, `PostgresChunkStore.insert` is an all-or-nothing
transactional replace: after a successful call the stored rows for the
document key are exactly the rows built from the chunk sequence, and a
call failing on any statement of the transaction rolls back, leaving
every prior row unchanged. -/
theorem C1_insert_transactional_replace
    (cfg : StoreConfig) (t : Table) (dk : String)
    (chunks : List ChunkWithEmbedding) (meta : List (String × DbValue))
    (hsc : ∀ p ∈ cfg.staticContext, p.1 ≠ cfg.mapping.documentKey)
    (hmm : ∀ p ∈ mapMetadata cfg.mapping meta, p.1 ≠ cfg.mapping.documentKey)
    (hemb : cfg.mapping.embedding ≠ cfg.mapping.documentKey)
    (hcont : cfg.mapping.content ≠ cfg.mapping.documentKey)
    (hidx : cfg.mapping.indexCol ≠ cfg.mapping.documentKey) :
    ((insertStore cfg t dk chunks meta none).ok = true ∧
      rowsForKey cfg (insertStore cfg t dk chunks meta none).table dk =
        chunks.map (fun ch => buildRecord cfg dk ch meta)) ∧
    ∀ j < (txStmts cfg dk chunks meta).length,
      insertStore cfg t dk chunks meta (some j) = ⟨false, t⟩ := by
  refine ⟨⟨?_, ?_⟩, ?_⟩
  · rw [insertStore_success]
  · rw [insertStore_success]
    show rowsForKey cfg (deleteByDocKey cfg t dk ++
      chunks.map (fun ch => buildRecord cfg dk ch meta)) dk = _
    unfold rowsForKey
    rw [List.filter_append]
    have h1 : (deleteByDocKey cfg t dk).filter
        (fun r => decide (rowGet r cfg.mapping.documentKey = some (DbValue.s dk))) = [] :=
      rowsForKey_deleteByDocKey cfg t dk
    rw [h1, List.nil_append]
    rw [List.filter_eq_self]
    intro r hr
    rcases List.mem_map.mp hr with ⟨ch, _, hch⟩
    subst hch
    simpa using buildRecord_docKey cfg dk ch meta hsc hmm hemb hcont hidx
  · intro j hj
    unfold insertStore
    rw [runStmts_fail cfg dk _ t 0 j (by omega) (by omega)]

/-- Concrete store configuration for the insert witnesses: the usual
GitHub-blob layout, one mapped metadata field and a static scope. -/
def wCfg : StoreConfig :=
  ⟨"embeddings",
   ⟨"document_key", "chunk_content", "chunk_index", "embedding",
    [("path", "path"), ("commitSha", "commit_sha")]⟩,
   [("repository_index_db_id", DbValue.num 7)]⟩

/-- A chunk with its embedding, for the witnesses. -/
def wChunk : ChunkWithEmbedding := ⟨"hello", 0, [1, 0, 0]⟩

/-- Concrete metadata for the witnesses. -/
def wMeta : List (String × DbValue) :=
  [("path", DbValue.s "k1"), ("commitSha", DbValue.s "abc")]

/-- A pre-existing row of an older generation of the same document. -/
def wRowOld : Row :=
  [("document_key", DbValue.s "k1"), ("chunk_content", DbValue.s "old"),
   ("repository_index_db_id", DbValue.num 7)]

/-- Witness for C1: at the concrete store, a successful insert replaces
the prior generation with exactly the built row, and the run failing at
statement 1 leaves the prior table untouched. -/
theorem C1_insert_transactional_replace_witness :
    ((insertStore wCfg [wRowOld] "k1" [wChunk] wMeta none).ok = true ∧
      rowsForKey wCfg (insertStore wCfg [wRowOld] "k1" [wChunk] wMeta none).table "k1" =
        [buildRecord wCfg "k1" wChunk wMeta]) ∧
    insertStore wCfg [wRowOld] "k1" [wChunk] wMeta (some 1) = ⟨false, [wRowOld]⟩ := by
  have h := C1_insert_transactional_replace wCfg [wRowOld] "k1" [wChunk] wMeta
    (by decide) (by decide) (by decide) (by decide) (by decide)
  exact ⟨⟨h.1.1, by simpa using h.1.2⟩, h.2 1 (by decide)⟩

/-- Store configuration whose metadata field `path` maps onto the same
physical column that is also the document-key column. -/
def cCfg : StoreConfig :=
  ⟨"embeddings", ⟨"path", "chunk_content", "chunk_index", "embedding", [("path", "path")]⟩, []⟩

/-- Metadata whose `path` value differs from the `documentKey` argument of
the call. -/
def cMeta : List (String × DbValue) := [("path", DbValue.s "B")]

/-- Counterexample to C1 as stated: when a mapped metadata field writes
the document-key column with a different value (object spread lets the
metadata win), a successful `insert("A", …)` leaves zero rows for
document key `A`, not the rows built from the chunk sequence. -/
theorem C1_counterexample :
    (insertStore cCfg [] "A" [wChunk] cMeta none).ok = true ∧
    rowsForKey cCfg (insertStore cCfg [] "A" [wChunk] cMeta none).table "A" = [] ∧
    [wChunk].map (fun ch => buildRecord cCfg "A" ch cMeta) ≠ [] := by
  refine ⟨by decide, by decide, by decide⟩

/-- C10: calling `PostgresChunkStore.insert` with an empty chunk sequence
is not a no-op: the transaction still runs the scoped DELETE and commits,
so afterwards the table is exactly the delete's result and zero rows
remain for the given document key. -/
theorem C10_empty_insert_removes_previous (cfg : StoreConfig) (t : Table)
    (dk : String) (meta : List (String × DbValue)) :
    insertStore cfg t dk [] meta none = ⟨true, deleteByDocKey cfg t dk⟩ ∧
    rowsForKey cfg (insertStore cfg t dk [] meta none).table dk = [] := by
  have h := insertStore_success cfg t dk [] meta
  simp only [List.map_nil, List.append_nil] at h
  refine ⟨h, ?_⟩
  rw [h]
  exact rowsForKey_deleteByDocKey cfg t dk

/-- C2 (amended per `C2_counterexample`): the rag2
`DocumentChunkStore.deleteByDocumentKey` scopes its DELETE by the
conjunction of the source-key conditions and the document key, so it
never removes a row that differs from the store's source context on a
source key that is mapped to a non-empty column and present in the
context; the rag3 store's delete filters on the document-key column
alone. -/
theorem C2_delete_scoping (schema : Rag2Schema)
    (sourceContext : List (String × DbValue)) (t : Table)
    (meta : List (String × DbValue)) (t2 : Table) (r : Row)
    (sk : String) (col : String) (v : DbValue)
    (hrun : rag2DeleteByDocumentKey schema sourceContext t meta = Except.ok t2)
    (hr : r ∈ t) (hsk : sk ∈ schema.sourceKeys)
    (hcol : recGet schema.columnMapping sk = some col) (hcolne : col ≠ "")
    (hv : rowGet sourceContext sk = some v)
    (hdiff : rowGet r col ≠ some v) : r ∈ t2 := by
  unfold rag2DeleteByDocumentKey at hrun
  cases hdc : rag2DocCond schema meta with
  | error e => rw [hdc] at hrun; cases hrun
  | ok dkCond =>
      rw [hdc] at hrun
      dsimp only at hrun
      by_cases hemp : rag2SourceConds schema sourceContext ++ dkCond = []
      · rw [if_pos hemp] at hrun; cases hrun
      · rw [if_neg hemp] at hrun
        have ht2 := Except.ok.inj hrun
        subst ht2
        apply List.mem_filter.mpr
        refine ⟨hr, ?_⟩
        have hmem : (col, v) ∈ rag2SourceConds schema sourceContext ++ dkCond := by
          apply List.mem_append_left
          apply List.mem_filterMap.mpr
          refine ⟨sk, hsk, ?_⟩
          rw [hcol]
          simp only [hcolne, if_false, hv]
        have hall : ((rag2SourceConds schema sourceContext ++ dkCond).all
            (fun cv => rowGet r cv.1 = some cv.2)) = false := by
          apply List.all_eq_false.mpr
          exact ⟨(col, v), hmem, by simpa using hdiff⟩
        rw [hall]
        rfl

/-- The rag2 schema for the scoping witness: source key `repoId` mapped to
`repo_id`, document key `path`. -/
def w2Schema : Rag2Schema :=
  ⟨"path", ["repoId"], [("repoId", "repo_id"), ("path", "path")]⟩

/-- Source context binding `repoId` to 1. -/
def w2Ctx : List (String × DbValue) := [("repoId", DbValue.num 1)]

/-- A row of a different source scope (`repo_id = 2`) with the same
document key. -/
def w2Row : Row := [("repo_id", DbValue.num 2), ("path", DbValue.s "k")]

/-- Metadata carrying the document key `k`. -/
def w2Meta : List (String × DbValue) := [("path", DbValue.s "k")]

/-- Witness for C2: the concrete rag2 delete keeps the row of the other
source scope. -/
theorem C2_delete_scoping_witness :
    rag2DeleteByDocumentKey w2Schema w2Ctx [w2Row] w2Meta = Except.ok [w2Row] ∧
    w2Row ∈ ([w2Row] : Table) := by
  refine ⟨rfl, ?_⟩
  exact C2_delete_scoping w2Schema w2Ctx [w2Row] w2Meta [w2Row] w2Row
    "repoId" "repo_id" (DbValue.num 1) rfl (by decide) (by decide)
    (by decide) (by decide) (by decide) (by decide)

/-- A rag3 store whose static context is `repo_id = 1`. -/
def c2Cfg : StoreConfig :=
  ⟨"embeddings",
   ⟨"document_key", "chunk_content", "chunk_index", "embedding", []⟩,
   [("repo_id", DbValue.num 1)]⟩

/-- A row of a different source scope (`repo_id = 2`) with the same
document key. -/
def c2Row : Row := [("repo_id", DbValue.num 2), ("document_key", DbValue.s "k")]

/-- Counterexample to C2 as stated: the rag3 delete (the one that precedes
every insert and backs the public `deleteByDocumentKey`) removes a row
whose source-key column value (`repo_id = 2`) differs from the store's
static scope (`repo_id = 1`), because its WHERE clause names only the
document-key column. -/
theorem C2_counterexample :
    rowGet c2Row "repo_id" = some (DbValue.num 2) ∧
    rowGet c2Row "repo_id" ≠ some (DbValue.num 1) ∧
    c2Cfg.staticContext = [("repo_id", DbValue.num 1)] ∧
    deleteByDocKey c2Cfg [c2Row] "k" = [] := by
  refine ⟨by decide, by decide, by decide, by decide⟩

/-- JavaScript `Array.prototype.slice` with possibly negative or
out-of-range indices (negative values count from the end, results clamp
to the array). -/
def jsSlice (l : List Str) (start endI : Int) : List Str :=
  (l.drop ((if start < 0 then max ((l.length : Int) + start) 0
      else min start (l.length : Int)).toNat)).take
    ((if endI < 0 then max ((l.length : Int) + endI) 0
      else min endI (l.length : Int)).toNat -
     (if start < 0 then max ((l.length : Int) + start) 0
      else min start (l.length : Int)).toNat)

/-- A chunk of the rag2 `LineChunker` generator: content and its emission
index. -/
structure Chunk2 where
  content : Str
  index : Nat
deriving DecidableEq

/-- One iteration bound of the rag2 `splitLongContent` while-loop
(`packages/rag2/src/chunkers/line-chunker.ts`, lines 25-53); the loop has
no safety checks, so the model is indexed by fuel (for `maxChars ≥ 1` the
loop consumes at least one character per iteration, so `content.length`
iterations reach every emission; for `maxChars = 0` the source loops
forever and every finite prefix of its output is reached at some fuel).
The rag2 break-point scan omits the `i < remaining.length` bound check of
the rag3 revision, but its callers guarantee `i < maxChars <
remaining.length`, so `findBp` models both. -/
def splitLong2Go (maxChars : Nat) (fuel : Nat) (remaining : Str) : List Str :=
  match fuel with
  | 0 => []
  | fuel + 1 =>
      if remaining.length = 0 then []
      else if remaining.length ≤ maxChars then [remaining]
      else
        jsTrim (remaining.take (findBp maxChars remaining)) ::
          splitLong2Go maxChars fuel (jsTrim (remaining.drop (findBp maxChars remaining)))

/-- Model of the rag2 `splitLongContent`. -/
def splitLongContent2 (maxChars : Nat) (content : Str) : List Str :=
  if content.length ≤ maxChars then [content]
  else splitLong2Go maxChars content.length content

/-- The `{content, index: chunkIndex++}` yields of the rag2 generator for
one window's pieces. -/
def withIdx (idx : Nat) : List Str → List Chunk2
  | [] => []
  | p :: rest => ⟨p, idx⟩ :: withIdx (idx + 1) rest

/-- The pieces the rag2 generator emits for the window at `i`: the window
content whole, or its character split when it exceeds `maxChars` or
contains a line longer than `0.8 * maxChars`. -/
def chunk2Pieces (cfg : ChunkerCfg) (lines : List Str) (i : Int) : List Str :=
  if cfg.maxChars <
      (jsTrim (joinLF (jsSlice lines i
        (min (i + (cfg.maxLines : Int)) (lines.length : Int))))).length
    || hasLongLines cfg (jsTrim (joinLF (jsSlice lines i
        (min (i + (cfg.maxLines : Int)) (lines.length : Int))))) then
    splitLongContent2 cfg.maxChars
      (jsTrim (joinLF (jsSlice lines i
        (min (i + (cfg.maxLines : Int)) (lines.length : Int)))))
  else
    [jsTrim (joinLF (jsSlice lines i
      (min (i + (cfg.maxLines : Int)) (lines.length : Int))))]

/-- Model of the rag2 `LineChunker.chunk` generator loop
(`for (let i = 0; i < lines.length; i += this.maxLines - this.overlap)`).
The step carries no `max(1, …)` guard, so for `overlap ≥ maxLines` the
loop never advances (or moves backwards through JavaScript's negative
`slice` indices) and the generator is infinite; the model is therefore
indexed by fuel, with every finite prefix of the emission reached at some
fuel. -/
def chunk2Go (cfg : ChunkerCfg) (lines : List Str) (fuel : Nat) (i : Int)
    (idx : Nat) : List Chunk2 :=
  match fuel with
  | 0 => []
  | fuel + 1 =>
      if i < (lines.length : Int) then
        if (jsTrim (joinLF (jsSlice lines i
            (min (i + (cfg.maxLines : Int)) (lines.length : Int))))).length = 0 then
          chunk2Go cfg lines fuel (i + ((cfg.maxLines : Int) - (cfg.overlap : Int))) idx
        else
          if (lines.length : Int) ≤ min (i + (cfg.maxLines : Int)) (lines.length : Int) then
            withIdx idx (chunk2Pieces cfg lines i)
          else
            withIdx idx (chunk2Pieces cfg lines i) ++
              chunk2Go cfg lines fuel (i + ((cfg.maxLines : Int) - (cfg.overlap : Int)))
                (idx + (chunk2Pieces cfg lines i).length)
      else []

/-- Model of the rag2 `LineChunker.chunk`. -/
def chunk2 (cfg : ChunkerCfg) (text : Str) (fuel : Nat) : List Chunk2 :=
  chunk2Go cfg (splitLF text) fuel 0 0

theorem withIdx_mem (pieces : List Str) :
    ∀ (idx : Nat) (c : Chunk2), c ∈ withIdx idx pieces → c.content ∈ pieces := by
  induction pieces with
  | nil => intro idx c h; cases h
  | cons p rest ih =>
      intro idx c h
      rw [withIdx] at h
      rcases List.mem_cons.mp h with h1 | h1
      · subst h1; exact List.mem_cons_self _ _
      · exact List.mem_cons_of_mem _ (ih _ c h1)

theorem splitLong2Go_bound (maxChars : Nat) :
    ∀ (fuel : Nat) (remaining : Str), ∀ p ∈ splitLong2Go maxChars fuel remaining,
      p.length ≤ maxChars := by
  intro fuel
  induction fuel with
  | zero => intro remaining p hp; cases hp
  | succ fuel ih =>
      intro remaining p hp
      rw [splitLong2Go] at hp
      by_cases h0 : remaining.length = 0
      · rw [if_pos h0] at hp; cases hp
      · rw [if_neg h0] at hp
        by_cases h1 : remaining.length ≤ maxChars
        · rw [if_pos h1] at hp
          rw [List.mem_singleton] at hp
          subst hp
          exact h1
        · rw [if_neg h1] at hp
          rcases List.mem_cons.mp hp with h2 | h2
          · subst h2
            calc (jsTrim (remaining.take (findBp maxChars remaining))).length
                ≤ (remaining.take (findBp maxChars remaining)).length :=
                  jsTrim_length_le _
              _ ≤ findBp maxChars remaining := by
                  rw [List.length_take]; omega
              _ ≤ maxChars := findBp_le _ _
          · exact ih _ p h2

theorem splitLongContent2_bound (maxChars : Nat) (content : Str) :
    ∀ p ∈ splitLongContent2 maxChars content, p.length ≤ maxChars := by
  intro p hp
  unfold splitLongContent2 at hp
  by_cases h : content.length ≤ maxChars
  · rw [if_pos h] at hp
    rw [List.mem_singleton] at hp
    subst hp
    exact h
  · rw [if_neg h] at hp
    exact splitLong2Go_bound maxChars _ content p hp

theorem chunk2Pieces_bound (cfg : ChunkerCfg) (lines : List Str) (i : Int) :
    ∀ p ∈ chunk2Pieces cfg lines i, p.length ≤ cfg.maxChars := by
  intro p hp
  unfold chunk2Pieces at hp
  by_cases h : (decide (cfg.maxChars <
      (jsTrim (joinLF (jsSlice lines i
        (min (i + (cfg.maxLines : Int)) (lines.length : Int))))).length)
    || hasLongLines cfg (jsTrim (joinLF (jsSlice lines i
        (min (i + (cfg.maxLines : Int)) (lines.length : Int)))))) = true
  · rw [if_pos h] at hp
    exact splitLongContent2_bound cfg.maxChars _ p hp
  · rw [if_neg h] at hp
    rw [List.mem_singleton] at hp
    subst hp
    rw [Bool.or_eq_true, not_or] at h
    have h1 := h.1
    simp only [decide_eq_true_eq] at h1
    omega

/-- C8: for every input string and every configuration with
`maxChunkSize > 0`, every chunk the rag2 line chunker emits (at any fuel,
hence anywhere in the generator's possibly infinite output) has content
length at most `maxChunkSize`: oversized window concatenations and
overlong single lines are subdivided by the character split before
emission. -/
theorem C8_chunk_size_bound (cfg : ChunkerCfg) (text : Str) (fuel : Nat)
    (_h : 0 < cfg.maxChars) :
    ∀ c ∈ chunk2 cfg text fuel, c.content.length ≤ cfg.maxChars := by
  suffices hs : ∀ (fuel : Nat) (i : Int) (idx : Nat),
      ∀ c ∈ chunk2Go cfg (splitLF text) fuel i idx,
        c.content.length ≤ cfg.maxChars by
    intro c hc
    exact hs fuel 0 0 c hc
  intro fuel
  induction fuel with
  | zero => intro i idx c hc; cases hc
  | succ fuel ih =>
      intro i idx c hc
      rw [chunk2Go] at hc
      by_cases h1 : i < (((splitLF text).length : Nat) : Int)
      · rw [if_pos h1] at hc
        by_cases h2 : (jsTrim (joinLF (jsSlice (splitLF text) i
            (min (i + (cfg.maxLines : Int)) ((splitLF text).length : Int))))).length = 0
        · rw [if_pos h2] at hc
          exact ih _ _ c hc
        · rw [if_neg h2] at hc
          by_cases h3 : (((splitLF text).length : Nat) : Int) ≤
              min (i + (cfg.maxLines : Int)) ((splitLF text).length : Int)
          · rw [if_pos h3] at hc
            exact chunk2Pieces_bound cfg _ i _ (withIdx_mem _ _ c hc)
          · rw [if_neg h3] at hc
            rcases List.mem_append.mp hc with h4 | h4
            · exact chunk2Pieces_bound cfg _ i _ (withIdx_mem _ _ c h4)
            · exact ih _ _ c h4
      · rw [if_neg h1] at hc
        cases hc

/-- Witness for C8 at a concrete configuration and input: maxChars 5, an
8-character line that must be character-split. -/
theorem C8_chunk_size_bound_witness :
    (chunk2 ⟨3, 1, 5⟩ "abcdefgh\nij".toList 6).all
      (fun c => decide (c.content.length ≤ 5)) = true :=
  List.all_eq_true.mpr (fun c hc =>
    decide_eq_true (C8_chunk_size_bound ⟨3, 1, 5⟩ "abcdefgh\nij".toList 6 (by decide) c hc))

/-- A stored row as the query's SELECT sees it: the embedding-column
vector and the selected columns by name. -/
structure QRow where
  embedding : List Rat
  cols : Row
deriving DecidableEq

/-- Parameters of `searchByQuestion` (`src/unnamed/part_010`). -/
structure SearchParams where
  question : Str
  limit : Int
  similarityThreshold : Rat

/-- The errors `searchByQuestion` can throw; the source throws `Error`s
with distinct messages, modelled as constructors. -/
inductive SearchErr where
  | initFailed
  | emptyQuestion
  | limitOutOfRange
  | thresholdOutOfRange
  | embedFailed
  | emptyEmbedding
  | invalidFilterField : String → SearchErr
  | rowInvalid
  | dbFailed
deriving DecidableEq

/-- The three errors of the parameter-validation block (`"Question cannot
be empty"`, `"Limit must be between 1-1000"`, `"Similarity threshold must
be between 0-1"`). -/
def isParamErr : SearchErr → Bool
  | SearchErr.emptyQuestion => true
  | SearchErr.limitOutOfRange => true
  | SearchErr.thresholdOutOfRange => true
  | _ => false

/-- Model of the validation block at the top of `searchByQuestion`
(`src/unnamed/part_010`, lines 106-115), in source order. -/
def paramCheck (p : SearchParams) : Option SearchErr :=
  if (jsTrim p.question).isEmpty then some SearchErr.emptyQuestion
  else if p.limit < 1 ∨ 1000 < p.limit then some SearchErr.limitOutOfRange
  else if p.similarityThreshold < 0 ∨ 1 < p.similarityThreshold then
    some SearchErr.thresholdOutOfRange
  else none

/-- Model of `validateSqlIdentifier`: the pattern
`^[a-zA-Z_][a-zA-Z0-9_]*$` (and non-empty). -/
def isValidSqlIdentifier (s : String) : Bool :=
  match s.toList with
  | [] => false
  | c :: rest => (c.isAlpha || c = '_') && rest.all (fun d => d.isAlpha || d.isDigit || d = '_')

/-- Model of the filter loop of `searchByQuestion`: entries with undefined
values are skipped; a field name failing the identifier pattern throws;
values are already `DbValue`s in the model, so the `DbValue.safeParse`
guard always passes. -/
def buildFilters : List (String × Option DbValue) → Except SearchErr (List (String × DbValue))
  | [] => Except.ok []
  | (f, v) :: rest =>
      match v with
      | none => buildFilters rest
      | some w =>
          if isValidSqlIdentifier f then
            match buildFilters rest with
            | Except.ok conds => Except.ok ((f, w) :: conds)
            | Except.error e => Except.error e
          else Except.error (SearchErr.invalidFilterField f)

/-- The similarity expression the query computes for a row:
`1 - (embedding <=> $1)`.  The cosine-distance operator `<=>` is the
vector extension's, outside this repository, so the model abstracts the
whole expression as the oracle `simFn` applied to the query embedding and
the row's embedding; the one expression backs the WHERE threshold, the
ORDER BY and the returned `similarity`, as in the source SQL. -/
def qSimilarity (simFn : List Rat → List Rat → Rat) (qe : List Rat) (r : QRow) : Rat :=
  simFn qe r.embedding

/-- Model of the SQL query of `searchByQuestion` (lines 170-177): keep the
rows passing `(1 - (embedding <=> $1)) >= $2` and every `field = $n`
filter, order by similarity descending, and apply `LIMIT`. -/
def runQuery (simFn : List Rat → List Rat → Rat) (qe : List Rat)
    (threshold : Rat) (conds : List (String × DbValue)) (limit : Nat)
    (table : List QRow) : List QRow :=
  ((table.filter (fun r =>
      decide (threshold ≤ qSimilarity simFn qe r) &&
      conds.all (fun fv => rowGet r.cols fv.1 = some fv.2))).insertionSort
    (fun a b => qSimilarity simFn qe b ≤ qSimilarity simFn qe a)).take limit

/-- A returned `QueryResult`: the chunk fields, the similarity, and the
metadata record rebuilt by the configured transform. -/
structure QueryResultM where
  content : String
  index : Rat
  similarity : Rat
  metadata : Row
deriving DecidableEq

/-- The columns `extractChunkData` reads. -/
structure QueryConfig where
  contentCol : String
  indexCol : String

/-- Model of the per-row transform of `searchByQuestion`'s result mapping:
`transformToMetadata` (an external parameter), `extractChunkData` (the
content and index columns must hold a string and a number), and the zod
check that `similarity` lies in `[0, 1]`; any failure throws. -/
def rowToResult (simFn : List Rat → List Rat → Rat) (qe : List Rat)
    (metaTf : Row → Option Row) (qc : QueryConfig) (r : QRow) :
    Except SearchErr QueryResultM :=
  match metaTf r.cols with
  | none => Except.error SearchErr.rowInvalid
  | some md =>
      match rowGet r.cols qc.contentCol, rowGet r.cols qc.indexCol with
      | some (DbValue.s c), some (DbValue.num n) =>
          if 0 ≤ qSimilarity simFn qe r ∧ qSimilarity simFn qe r ≤ 1 then
            Except.ok ⟨c, n, qSimilarity simFn qe r, md⟩
          else Except.error SearchErr.rowInvalid
      | _, _ => Except.error SearchErr.rowInvalid

/-- `result.rows.map(...)` with a throwing body: the first failing row
aborts the call. -/
def mapResults (g : QRow → Except SearchErr QueryResultM) :
    List QRow → Except SearchErr (List QueryResultM)
  | [] => Except.ok []
  | r :: rest =>
      match g r with
      | Except.error e => Except.error e
      | Except.ok q =>
          match mapResults g rest with
          | Except.error e => Except.error e
          | Except.ok qs => Except.ok (q :: qs)

/-- Model of `PostgresQueryService.searchByQuestion`
(`src/unnamed/part_010`): `await this.initialize()` first (the pgvector
type registration on a pooled connection, whose outcome is `initRes`),
then validate the parameters, embed the question (`embedRes` is the
embedder's outcome), reject an empty embedding, resolve and validate the
filters, run the query (`dbFail` is the database-failure oracle) and map
the rows. -/
def searchByQuestion (qc : QueryConfig) (p : SearchParams)
    (initRes : Except Unit Unit)
    (embedRes : Except Unit (List Rat))
    (resolved : List (String × Option DbValue))
    (simFn : List Rat → List Rat → Rat)
    (metaTf : Row → Option Row)
    (dbFail : Bool)
    (table : List QRow) : Except SearchErr (List QueryResultM) :=
  match initRes with
  | Except.error _ => Except.error SearchErr.initFailed
  | Except.ok _ =>
  match paramCheck p with
  | some e => Except.error e
  | none =>
      match embedRes with
      | Except.error _ => Except.error SearchErr.embedFailed
      | Except.ok qe =>
          if qe.length = 0 then Except.error SearchErr.emptyEmbedding
          else
            match buildFilters resolved with
            | Except.error e => Except.error e
            | Except.ok conds =>
                if dbFail then Except.error SearchErr.dbFailed
                else
                  mapResults (rowToResult simFn qe metaTf qc)
                    (runQuery simFn qe p.similarityThreshold conds p.limit.toNat table)

theorem except_ok_of_toOption (e : Except SearchErr (List QueryResultM))
    (x : List QueryResultM) (h : e.toOption = some x) : e = Except.ok x := by
  cases e with
  | ok y =>
      simp only [Except.toOption, Option.some.injEq] at h
      rw [h]
  | error err => simp [Except.toOption] at h

theorem mapResults_mem (g : QRow → Except SearchErr QueryResultM) :
    ∀ (l : List QRow) (qs : List QueryResultM), mapResults g l = Except.ok qs →
      ∀ q ∈ qs, ∃ r ∈ l, g r = Except.ok q := by
  intro l
  induction l with
  | nil =>
      intro qs h q hq
      rw [mapResults] at h
      cases h
      cases hq
  | cons r rest ih =>
      intro qs h q hq
      rw [mapResults] at h
      cases hg : g r with
      | error e => rw [hg] at h; cases h
      | ok q0 =>
          rw [hg] at h
          cases hrest : mapResults g rest with
          | error e => rw [hrest] at h; cases h
          | ok qs0 =>
              rw [hrest] at h
              cases h
              rcases List.mem_cons.mp hq with h1 | h1
              · subst h1
                exact ⟨r, List.mem_cons_self _ _, hg⟩
              · obtain ⟨r2, hr2, hg2⟩ := ih qs0 hrest q h1
                exact ⟨r2, List.mem_cons_of_mem _ hr2, hg2⟩

theorem rowToResult_similarity (simFn : List Rat → List Rat → Rat) (qe : List Rat)
    (metaTf : Row → Option Row) (qc : QueryConfig) (r : QRow) (q : QueryResultM)
    (h : rowToResult simFn qe metaTf qc r = Except.ok q) :
    q.similarity = qSimilarity simFn qe r := by
  unfold rowToResult at h
  split at h
  · cases h
  · split at h
    · split at h
      · cases h
        rfl
      · cases h
    · cases h

theorem runQuery_mem_threshold (simFn : List Rat → List Rat → Rat) (qe : List Rat)
    (threshold : Rat) (conds : List (String × DbValue)) (limit : Nat)
    (table : List QRow) (r : QRow)
    (h : r ∈ runQuery simFn qe threshold conds limit table) :
    threshold ≤ qSimilarity simFn qe r := by
  unfold runQuery at h
  have h1 := List.mem_of_mem_take h
  have h2 := (List.perm_insertionSort
    (fun a b => qSimilarity simFn qe b ≤ qSimilarity simFn qe a) _).mem_iff.mp h1
  have h3 := (List.mem_filter.mp h2).2
  rw [Bool.and_eq_true] at h3
  simpa using h3.1

/-- C3: every result `searchByQuestion` returns has
`similarity ≥ similarityThreshold`, for every database state, embedder
outcome, filter set and distance operator: the threshold is a conjunct of
the query's WHERE clause, so it holds before results are returned. -/
theorem C3_results_meet_threshold (qc : QueryConfig) (p : SearchParams)
    (initRes : Except Unit Unit)
    (embedRes : Except Unit (List Rat)) (resolved : List (String × Option DbValue))
    (simFn : List Rat → List Rat → Rat) (metaTf : Row → Option Row)
    (dbFail : Bool) (table : List QRow) (results : List QueryResultM)
    (h : searchByQuestion qc p initRes embedRes resolved simFn metaTf dbFail table =
      Except.ok results) :
    ∀ res ∈ results, p.similarityThreshold ≤ res.similarity := by
  intro res hres
  unfold searchByQuestion at h
  cases hinit : initRes with
  | error e0 => rw [hinit] at h; cases h
  | ok u =>
  rw [hinit] at h
  dsimp only at h
  cases hp : paramCheck p with
  | some e => rw [hp] at h; cases h
  | none =>
      rw [hp] at h
      cases hemb : embedRes with
      | error e => rw [hemb] at h; cases h
      | ok qe =>
          rw [hemb] at h
          dsimp only at h
          by_cases hlen : qe.length = 0
          · rw [if_pos hlen] at h; cases h
          · rw [if_neg hlen] at h
            cases hbf : buildFilters resolved with
            | error e => rw [hbf] at h; cases h
            | ok conds =>
                rw [hbf] at h
                dsimp only at h
                by_cases hdb : dbFail = true
                · rw [if_pos hdb] at h; cases h
                · rw [if_neg hdb] at h
                  obtain ⟨r, hrmem, hrok⟩ := mapResults_mem _ _ _ h res hres
                  rw [rowToResult_similarity simFn qe metaTf qc r res hrok]
                  exact runQuery_mem_threshold simFn qe p.similarityThreshold conds
                    p.limit.toNat table r hrmem

/-- Query configuration for the search witnesses. -/
def wQC : QueryConfig := ⟨"chunk_content", "chunk_index"⟩

/-- A stored row whose similarity under the witness distance operator is
1. -/
def wQRow : QRow :=
  ⟨[1], [("chunk_content", DbValue.s "c"), ("chunk_index", DbValue.num 0)]⟩

/-- Search parameters with threshold 0 for the witnesses. -/
def wParams : SearchParams := ⟨"q".toList, 5, 0⟩

/-- Witness for C3: a concrete successful search returns one result and
its similarity meets the threshold. -/
theorem C3_results_meet_threshold_witness :
    searchByQuestion wQC wParams (Except.ok ()) (Except.ok [1]) [] (fun _ _ => 1)
        (fun c => some c) false [wQRow] =
      Except.ok [⟨"c", 0, 1, wQRow.cols⟩] ∧
    ∀ res ∈ [(⟨"c", 0, 1, wQRow.cols⟩ : QueryResultM)],
      wParams.similarityThreshold ≤ res.similarity := by
  have h : searchByQuestion wQC wParams (Except.ok ()) (Except.ok [1]) [] (fun _ _ => 1)
      (fun c => some c) false [wQRow] =
      Except.ok [⟨"c", 0, 1, wQRow.cols⟩] :=
    except_ok_of_toOption _ _ (by decide)
  refine ⟨h, ?_⟩
  exact C3_results_meet_threshold wQC wParams (Except.ok ()) (Except.ok [1]) [] (fun _ _ => 1)
    (fun c => some c) false [wQRow] [⟨"c", 0, 1, wQRow.cols⟩] h

theorem buildFilters_err :
    ∀ (l : List (String × Option DbValue)) (e : SearchErr),
      buildFilters l = Except.error e → ∃ f, e = SearchErr.invalidFilterField f := by
  intro l
  induction l with
  | nil => intro e h; cases h
  | cons fv rest ih =>
      intro e h
      obtain ⟨f, v⟩ := fv
      simp only [buildFilters] at h
      cases v with
      | none => exact ih e h
      | some w =>
          dsimp only at h
          by_cases hid : isValidSqlIdentifier f = true
          · rw [if_pos hid] at h
            cases hbf : buildFilters rest with
            | ok conds => rw [hbf] at h; cases h
            | error e2 =>
                rw [hbf] at h
                cases h
                exact ih _ hbf
          · rw [if_neg hid] at h
            cases h
            exact ⟨f, rfl⟩

theorem rowToResult_err (simFn : List Rat → List Rat → Rat) (qe : List Rat)
    (metaTf : Row → Option Row) (qc : QueryConfig) (r : QRow) (e : SearchErr)
    (h : rowToResult simFn qe metaTf qc r = Except.error e) :
    e = SearchErr.rowInvalid := by
  unfold rowToResult at h
  split at h
  · cases h; rfl
  · split at h
    · split at h
      · cases h
      · cases h; rfl
    · cases h; rfl

theorem mapResults_err (g : QRow → Except SearchErr QueryResultM)
    (hg : ∀ r e, g r = Except.error e → e = SearchErr.rowInvalid) :
    ∀ (l : List QRow) (e : SearchErr),
      mapResults g l = Except.error e → e = SearchErr.rowInvalid := by
  intro l
  induction l with
  | nil => intro e h; cases h
  | cons r rest ih =>
      intro e h
      rw [mapResults] at h
      cases hgr : g r with
      | error e2 =>
          rw [hgr] at h
          cases h
          exact hg r _ hgr
      | ok q =>
          rw [hgr] at h
          cases hrest : mapResults g rest with
          | error e2 =>
              rw [hrest] at h
              cases h
              exact ih _ hrest
          | ok qs => rw [hrest] at h; cases h

/-- C4 (amended per `C4_counterexample`): once the pgvector type
registration succeeds, `searchByQuestion` validates its parameters before
the embedding call and the search query: when the trimmed question is
empty, the limit is outside `[1, 1000]`, or the threshold is outside
`[0, 1]`, the call returns the corresponding validation error whatever
the embedder, filter resolver, database state or failure oracle (so no
embedding or query work influenced the outcome); otherwise no
parameter-validation error is raised.  A failing registration, however,
preempts validation.  The last conjunct ties the model's check to exactly
the claimed conditions. -/
theorem C4_parameter_validation (qc : QueryConfig) (p : SearchParams)
    (embedRes : Except Unit (List Rat)) (resolved : List (String × Option DbValue))
    (simFn : List Rat → List Rat → Rat) (metaTf : Row → Option Row)
    (dbFail : Bool) (table : List QRow) :
    (∀ e, paramCheck p = some e →
      searchByQuestion qc p (Except.ok ()) embedRes resolved simFn metaTf dbFail table =
        Except.error e ∧ isParamErr e = true) ∧
    (paramCheck p = none →
      ∀ e, searchByQuestion qc p (Except.ok ()) embedRes resolved simFn metaTf dbFail table =
        Except.error e → isParamErr e = false) ∧
    (searchByQuestion qc p (Except.error ()) embedRes resolved simFn metaTf dbFail table =
      Except.error SearchErr.initFailed) ∧
    (paramCheck p = none ↔
      ¬((jsTrim p.question).isEmpty = true ∨ p.limit < 1 ∨ 1000 < p.limit ∨
        p.similarityThreshold < 0 ∨ 1 < p.similarityThreshold)) := by
  refine ⟨?_, ?_, rfl, ?_⟩
  · intro e he
    constructor
    · unfold searchByQuestion
      rw [he]
    · unfold paramCheck at he
      by_cases h1 : (jsTrim p.question).isEmpty = true
      · rw [if_pos h1] at he
        cases he
        rfl
      · rw [if_neg h1] at he
        by_cases h2 : p.limit < 1 ∨ 1000 < p.limit
        · rw [if_pos h2] at he
          cases he
          rfl
        · rw [if_neg h2] at he
          by_cases h3 : p.similarityThreshold < 0 ∨ 1 < p.similarityThreshold
          · rw [if_pos h3] at he
            cases he
            rfl
          · rw [if_neg h3] at he
            cases he
  · intro hn e h
    unfold searchByQuestion at h
    rw [hn] at h
    cases hemb : embedRes with
    | error e2 =>
        rw [hemb] at h
        cases h
        rfl
    | ok qe =>
        rw [hemb] at h
        dsimp only at h
        by_cases hlen : qe.length = 0
        · rw [if_pos hlen] at h
          cases h
          rfl
        · rw [if_neg hlen] at h
          cases hbf : buildFilters resolved with
          | error e2 =>
              rw [hbf] at h
              cases h
              obtain ⟨f, hf⟩ := buildFilters_err resolved _ hbf
              rw [hf]
              rfl
          | ok conds =>
              rw [hbf] at h
              dsimp only at h
              by_cases hdb : dbFail = true
              · rw [if_pos hdb] at h
                cases h
                rfl
              · rw [if_neg hdb] at h
                have he := mapResults_err _ (fun r e2 h2 =>
                  rowToResult_err simFn qe metaTf qc r e2 h2) _ e h
                rw [he]
                rfl
  · constructor
    · intro hn hc
      unfold paramCheck at hn
      by_cases h1 : (jsTrim p.question).isEmpty = true
      · rw [if_pos h1] at hn; cases hn
      · rw [if_neg h1] at hn
        by_cases h2 : p.limit < 1 ∨ 1000 < p.limit
        · rw [if_pos h2] at hn; cases hn
        · rw [if_neg h2] at hn
          by_cases h3 : p.similarityThreshold < 0 ∨ 1 < p.similarityThreshold
          · rw [if_pos h3] at hn; cases hn
          · rcases hc with hc | hc | hc | hc | hc
            · exact h1 hc
            · exact h2 (Or.inl hc)
            · exact h2 (Or.inr hc)
            · exact h3 (Or.inl hc)
            · exact h3 (Or.inr hc)
    · intro hv
      unfold paramCheck
      rw [if_neg (fun h => hv (Or.inl h))]
      rw [if_neg (fun h => hv (h.elim (fun h1 => Or.inr (Or.inl h1))
        (fun h1 => Or.inr (Or.inr (Or.inl h1)))))]
      rw [if_neg (fun h => hv (h.elim (fun h1 => Or.inr (Or.inr (Or.inr (Or.inl h1))))
        (fun h1 => Or.inr (Or.inr (Or.inr (Or.inr h1))))))]

/-- Search parameters with an out-of-range limit for the C4 witness. -/
def w4Params : SearchParams := ⟨"q".toList, 0, 0⟩

/-- Witness for C4: with `limit = 0` and registration succeeding, the
concrete call fails with the limit validation error, independently of the
table contents. -/
theorem C4_parameter_validation_witness :
    searchByQuestion wQC w4Params (Except.ok ()) (Except.ok [1]) [] (fun _ _ => 1)
        (fun c => some c) false [wQRow] =
      Except.error SearchErr.limitOutOfRange ∧
    isParamErr SearchErr.limitOutOfRange = true :=
  (C4_parameter_validation wQC w4Params (Except.ok [1]) [] (fun _ _ => 1)
    (fun c => some c) false [wQRow]).1 SearchErr.limitOutOfRange (by decide)

/-- Counterexample to C4 as stated: `searchByQuestion` runs
`await this.initialize()` — the pgvector type registration, a database
round-trip on a pooled connection — before the validation block, so a
call with `limit = 0` whose registration fails returns the registration
error, not a validation error: the parameters are not validated before
all database work. -/
theorem C4_counterexample :
    searchByQuestion wQC w4Params (Except.error ()) (Except.ok [1]) [] (fun _ _ => 1)
        (fun c => some c) false [wQRow] =
      Except.error SearchErr.initFailed ∧
    isParamErr SearchErr.initFailed = false ∧
    paramCheck w4Params = some SearchErr.limitOutOfRange := by
  refine ⟨rfl, rfl, by decide⟩

/-- The outcome of one retry attempt for one document: the work of the
attempt body (`chunker.chunk`, the `embedBatch` calls, and
`chunkStore.insert`) either succeeds, storing some number of chunks in
one transaction, or throws.  The claims C5 and C6 quantify over arbitrary
failures, so the attempt body is an oracle indexed by the 1-based attempt
number (each attempt re-chunks and re-embeds). -/
abbrev AttemptFn := Nat → Except String Nat

/-- Model of the retry loop of `IngestPipeline.processDocument`
(`packages/rag3/src/ingest/ingest-pipeline.ts`, lines 142-193):
`for (attempt = 1; attempt <= maxRetries; attempt++)`, rethrowing the
error of the last attempt; if the loop ends without an attempt (only for
`maxRetries = 0`) the function returns normally with nothing stored. -/
def processDocGo (maxRetries : Nat) (outcome : AttemptFn) (attempt : Nat) :
    Except String Nat :=
  if attempt ≤ maxRetries then
    match outcome attempt with
    | Except.ok n => Except.ok n
    | Except.error e =>
        if attempt = maxRetries then Except.error e
        else processDocGo maxRetries outcome (attempt + 1)
  else Except.ok 0
termination_by maxRetries + 1 - attempt
decreasing_by
  rename_i h1 _h2
  omega

/-- `processDocument` starts at attempt 1. -/
def processDocument (maxRetries : Nat) (outcome : AttemptFn) : Except String Nat :=
  processDocGo maxRetries outcome 1

/-- The `IngestResult` record of the rag3 pipeline. -/
structure IngestResultM where
  totalDocuments : Nat
  successfulDocuments : Nat
  failedDocuments : Nat
  totalChunks : Nat
  errors : List (String × String)
deriving DecidableEq

/-- One document of the loader's stream: its document key (as
`getDocumentKey` derives it) and its per-attempt outcome oracle. -/
structure PipeDoc where
  key : String
  outcome : AttemptFn

/-- One iteration of the `for await (const document of ...)` loop of
`IngestPipeline.ingest` (lines 108-131): count the document, try
`processDocument`, and on catch record `{document, error}` and count the
failure.  The second component ledgers the successful
`chunkStore.insert` calls as `(documentKey, chunks stored)`; note the
loop never touches `totalChunks`. -/
def ingestStep (maxRetries : Nat) (acc : IngestResultM × List (String × Nat))
    (d : PipeDoc) : IngestResultM × List (String × Nat) :=
  match processDocument maxRetries d.outcome with
  | Except.ok n =>
      (⟨acc.1.totalDocuments + 1, acc.1.successfulDocuments + 1,
        acc.1.failedDocuments, acc.1.totalChunks, acc.1.errors⟩,
       acc.2 ++ [(d.key, n)])
  | Except.error e =>
      (⟨acc.1.totalDocuments + 1, acc.1.successfulDocuments,
        acc.1.failedDocuments + 1, acc.1.totalChunks,
        acc.1.errors ++ [(d.key, e)]⟩,
       acc.2)

/-- The `IngestResult` literal `ingest` starts from. -/
def emptyIngest : IngestResultM := ⟨0, 0, 0, 0, []⟩

/-- Model of `IngestPipeline.ingest`: the loader yields `docs` and then
either completes or its iterator throws (`loaderErr`).  A loader error is
caught by the outer try, wrapped as `OperationError.invalidOperation` and
rethrown, discarding the accumulated result; otherwise the accumulated
`IngestResult` and the ledger of successful store calls are returned. -/
def ingestModel (maxRetries : Nat) (docs : List PipeDoc)
    (loaderErr : Option String) :
    Except String (IngestResultM × List (String × Nat)) :=
  match loaderErr with
  | some e => Except.error e
  | none => Except.ok (docs.foldl (ingestStep maxRetries) (emptyIngest, []))

/-- Whether a document's retry loop ends in success. -/
def docSucceeds (maxRetries : Nat) (d : PipeDoc) : Bool :=
  match processDocument maxRetries d.outcome with
  | Except.ok _ => true
  | Except.error _ => false

/-- The `{document, error}` entry a finally-failing document contributes
to `result.errors`. -/
def docFailureEntry (maxRetries : Nat) (d : PipeDoc) : Option (String × String) :=
  match processDocument maxRetries d.outcome with
  | Except.ok _ => none
  | Except.error e => some (d.key, e)

/-- The `(documentKey, chunks stored)` ledger entry of a successfully
stored document. -/
def docLedgerEntry (maxRetries : Nat) (d : PipeDoc) : Option (String × Nat) :=
  match processDocument maxRetries d.outcome with
  | Except.ok n => some (d.key, n)
  | Except.error _ => none

theorem ingest_foldl (maxRetries : Nat) :
    ∀ (docs : List PipeDoc) (acc : IngestResultM × List (String × Nat)),
      docs.foldl (ingestStep maxRetries) acc =
        (⟨acc.1.totalDocuments + docs.length,
          acc.1.successfulDocuments + (docs.filter (docSucceeds maxRetries)).length,
          acc.1.failedDocuments +
            (docs.filter (fun d => !docSucceeds maxRetries d)).length,
          acc.1.totalChunks,
          acc.1.errors ++ docs.filterMap (docFailureEntry maxRetries)⟩,
         acc.2 ++ docs.filterMap (docLedgerEntry maxRetries)) := by
  intro docs
  induction docs with
  | nil => intro acc; simp
  | cons d rest ih =>
      intro acc
      rw [List.foldl_cons, ih]
      cases hp : processDocument maxRetries d.outcome with
      | ok n =>
          simp only [ingestStep, hp, docSucceeds, docFailureEntry, docLedgerEntry,
            List.filter_cons, List.filterMap_cons]
          simp only [Prod.mk.injEq, IngestResultM.mk.injEq]
          refine ⟨⟨by simp; omega, by simp [docSucceeds, hp]; omega,
            by simp [docSucceeds, hp], trivial, by simp [docFailureEntry, hp]⟩,
            by simp [docLedgerEntry, hp]⟩
      | error e =>
          simp only [ingestStep, hp, docSucceeds, docFailureEntry, docLedgerEntry,
            List.filter_cons, List.filterMap_cons]
          simp only [Prod.mk.injEq, IngestResultM.mk.injEq]
          refine ⟨⟨by simp; omega, by simp [docSucceeds, hp],
            by simp [docSucceeds, hp]; omega, trivial,
            by simp [docFailureEntry, hp]⟩,
            by simp [docLedgerEntry, hp]⟩

/-- C5: the rag3 ingest pipeline isolates failures per document.  For a
stream whose iterator completes, the run succeeds and its result is
determined document by document: each document whose retry loop ends in
an error is recorded in `errors` with its key and counted in
`failedDocuments`, each succeeding document (wherever it stands in the
stream, also after failures) is stored and counted in
`successfulDocuments`; only a loader iterator error terminates the run
with an error. -/
theorem C5_pipeline_isolation (maxRetries : Nat) (docs : List PipeDoc) :
    ingestModel maxRetries docs none =
      Except.ok
        (⟨docs.length,
          (docs.filter (docSucceeds maxRetries)).length,
          (docs.filter (fun d => !docSucceeds maxRetries d)).length,
          0,
          docs.filterMap (docFailureEntry maxRetries)⟩,
         docs.filterMap (docLedgerEntry maxRetries)) ∧
    (∀ d ∈ docs, ∀ e, processDocument maxRetries d.outcome = Except.error e →
      (d.key, e) ∈ docs.filterMap (docFailureEntry maxRetries)) ∧
    (∀ d ∈ docs, ∀ n, processDocument maxRetries d.outcome = Except.ok n →
      (d.key, n) ∈ docs.filterMap (docLedgerEntry maxRetries)) ∧
    (∀ e, ingestModel maxRetries docs (some e) = Except.error e) := by
  refine ⟨?_, ?_, ?_, fun e => rfl⟩
  · show Except.ok (docs.foldl (ingestStep maxRetries) (emptyIngest, [])) = _
    rw [ingest_foldl]
    simp [emptyIngest]
  · intro d hd e he
    exact List.mem_filterMap.mpr ⟨d, hd, by simp [docFailureEntry, he]⟩
  · intro d hd n hn
    exact List.mem_filterMap.mpr ⟨d, hd, by simp [docLedgerEntry, hn]⟩

/-- A document whose only attempt succeeds with 2 chunks stored. -/
def c6Doc : PipeDoc := ⟨"doc1", fun _ => Except.ok 2⟩

/-- Evaluation of the pipeline at C6's failing input: one document is
ingested successfully and 2 chunks are handed to the store (the ledger
records `("doc1", 2)`), yet the returned `IngestResult` reports
`totalChunks = 0` — the pipeline initializes the field to 0 and never
updates it. -/
theorem C6_totalChunks_stays_zero :
    ingestModel 3 [c6Doc] none =
      Except.ok (⟨1, 1, 0, 0, []⟩, [("doc1", 2)]) ∧
    (⟨1, 1, 0, 0, []⟩ : IngestResultM).totalChunks ≠ 2 := by
  constructor
  · show Except.ok ([c6Doc].foldl (ingestStep 3) (emptyIngest, [])) = _
    rw [ingest_foldl]
    simp [emptyIngest, docSucceeds, docFailureEntry, docLedgerEntry, processDocument,
      processDocGo, c6Doc]
  · decide
